import Mathlib

/-!
Verification of `tools/apply_palette.py` (Honeypunk repository).

The script is embedded shallowly: Python strings become `String` (operated on
through their character lists), Python dicts become association lists with
first-match lookup, YAML scalar slots become the `YVal` type, and the theme
document becomes a list of named sections.  Each function of the script is
translated definition-by-definition; file writes are recorded as a boolean
field of the result instead of an I/O effect.
-/

/-- Embedding of CPython `str.upper` on one character (ASCII case rule). -/
def pyUpperChar (c : Char) : Char :=
  if 97 ≤ c.toNat ∧ c.toNat ≤ 122 then Char.ofNat (c.toNat - 32) else c

/-- Embedding of CPython `str.lower` on one character (ASCII case rule). -/
def pyLowerChar (c : Char) : Char :=
  if 65 ≤ c.toNat ∧ c.toNat ≤ 90 then Char.ofNat (c.toNat + 32) else c

def pyUpper (l : List Char) : List Char := l.map pyUpperChar

def pyLower (l : List Char) : List Char := l.map pyLowerChar

def pyUpperS (s : String) : String := String.mk (pyUpper s.data)

def pyLowerS (s : String) : String := String.mk (pyLower s.data)

/-- Embedding of Python `str.strip()`: drop whitespace from both ends. -/
def pyStrip (l : List Char) : List Char :=
  ((l.dropWhile Char.isWhitespace).reverse.dropWhile Char.isWhitespace).reverse

/-- Embedding of Python `str.strip('"')`: drop double quotes from both ends. -/
def stripQuotes (l : List Char) : List Char :=
  ((l.dropWhile (fun c => c == '"')).reverse.dropWhile (fun c => c == '"')).reverse

/-- The character class `[0-9a-fA-F]` of the script's regexes. -/
def isHexDigitC (c : Char) : Bool :=
  (48 ≤ c.toNat && c.toNat ≤ 57) || (97 ≤ c.toNat && c.toNat ≤ 102) ||
    (65 ≤ c.toNat && c.toNat ≤ 70)

/-- An uppercase hex digit `[0-9A-F]` (used to state canonical form). -/
def isUpperHexDigit (c : Char) : Bool :=
  (48 ≤ c.toNat && c.toNat ≤ 57) || (65 ≤ c.toNat && c.toNat ≤ 70)

/-- `re.match(r"[0-9a-fA-F]\x7b2\x7dx[0-9a-fA-F]\x7b8\x7d", s)`: anchored at the
start only, so this is a prefix match (used by `update_yaml_colors`). -/
def isFlagStart (l : List Char) : Bool :=
  match l with
  | c1 :: c2 :: c3 :: rest =>
      isHexDigitC c1 && isHexDigitC c2 && c3 == 'x' &&
        (rest.take 8).length == 8 && (rest.take 8).all isHexDigitC
  | _ => false

/-- The `^...$`-anchored flag pattern of `apply_semantic`: exactly two hex
digits, `x`, and exactly eight hex digits. -/
def isFlagExact (l : List Char) : Bool :=
  match l with
  | c1 :: c2 :: c3 :: rest =>
      isHexDigitC c1 && isHexDigitC c2 && c3 == 'x' &&
        rest.length == 8 && rest.all isHexDigitC
  | _ => false

/-- `re.fullmatch(r"#[0-9A-Fa-f]\x7b6\x7d(?:[0-9A-Fa-f]\x7b2\x7d)?", s)`:
a `#` followed by exactly 6 or 8 hex digits. -/
def hexColorFull (s : String) : Bool :=
  match s.data with
  | '#' :: rest => (rest.length == 6 || rest.length == 8) && rest.all isHexDigitC
  | _ => false

/-- Canonical palette form: `#` followed by 6 or 8 uppercase hex digits. -/
def isCanonicalHex (s : String) : Bool :=
  match s.data with
  | c :: rest =>
      c == '#' && (rest.length == 6 || rest.length == 8) && rest.all isUpperHexDigit
  | [] => false

/-- Core of `normalize_color`: `val = value.strip().upper()`, quote/hash
prefix handling, giving the characters that follow the final `#`. -/
def ncCore (l : List Char) : List Char :=
  let v := pyUpper (pyStrip l)
  if v.take 2 = ['"', '#'] then
    if v.getLast? = some '"' then (v.drop 2).dropLast else v.drop 2
  else if v.take 1 = ['#'] then v.drop 1
  else v

/-- Embedding of `normalize_color` (apply_palette.py lines 59-66). -/
def normalize_color (value : String) : String :=
  let v := ncCore value.data
  if v = [] then value else String.mk ('#' :: v)

/-- `val.strip('"').upper()`, the right-hand side of the comparison on
line 113 of `update_yaml_colors`. -/
def stripQuotesUpper (s : String) : String := String.mk (pyUpper (stripQuotes s.data))

/-- A value sitting in one slot of a theme pair: a string or some other
YAML scalar (non-strings are skipped by every rewrite). -/
inductive YVal where
  | s (v : String)
  | other
  deriving DecidableEq, Repr

/-- A section entry value: a two-element `[background, foreground]` list, or
anything else (non-lists and lists of length other than two are skipped). -/
inductive Item where
  | pair (bg fg : YVal)
  | notPair
  deriving DecidableEq, Repr

/-- A section of the theme document: a mapping of keys to items, or a
non-mapping value (skipped by both rewrites). -/
inductive Sect where
  | dict (entries : List (String × Item))
  | notDict
  deriving DecidableEq, Repr

/-- The theme document's `Sections` mapping. -/
abbrev Doc := List (String × Sect)

/-- One slot of `update_yaml_colors`' inner loop (lines 97-115): skip
flag-prefixed values, normalize, and overwrite (counting) only when the
normalized form is strict hex and differs from the quote-stripped,
uppercased original. -/
def normSlot : YVal → YVal × Nat
  | .other => (.other, 0)
  | .s v =>
    if isFlagStart v.data then (.s v, 0)
    else
      let normalized := normalize_color v
      if hexColorFull normalized then
        if normalized ≠ stripQuotesUpper v then (.s normalized, 1) else (.s v, 0)
      else (.s v, 0)

/-- Both slots of a `[background, foreground]` pair, summing the counts. -/
def normPair (bg fg : YVal) : Item × Nat :=
  let b := normSlot bg
  let f := normSlot fg
  (.pair b.1 f.1, b.2 + f.2)

/-- One key of a section in normalize mode: `GUID` and non-pairs skipped. -/
def normEntry (key : String) (it : Item) : Item × Nat :=
  if key == "GUID" then (it, 0)
  else
    match it with
    | .pair bg fg => normPair bg fg
    | .notPair => (it, 0)

def normEntries : List (String × Item) → List (String × Item) × Nat
  | [] => ([], 0)
  | e :: rest =>
    let x := normEntry e.1 e.2
    let r := normEntries rest
    ((e.1, x.1) :: r.1, x.2 + r.2)

def normSection : Sect → Sect × Nat
  | .notDict => (.notDict, 0)
  | .dict es =>
    let r := normEntries es
    (.dict r.1, r.2)

def normSections : Doc → Doc × Nat
  | [] => ([], 0)
  | s :: rest =>
    let x := normSection s.2
    let r := normSections rest
    ((s.1, x.1) :: r.1, x.2 + r.2)

/-- Result of `update_yaml_colors`: the mutated document, the replacement
count it returns, and whether the file was written back. -/
structure NormResult where
  doc : Doc
  count : Nat
  wrote : Bool
  deriving DecidableEq, Repr

/-- Embedding of `update_yaml_colors` (lines 69-120).  The `palette_colors`
argument is accepted and unused, exactly as in the source; the write on
lines 117-118 is unconditional. -/
def update_yaml_colors (doc : Doc) (palette_colors : List String) : NormResult :=
  let r := normSections doc
  { doc := r.1, count := r.2, wrote := true }

/-- Association-list lookup with Python-dict semantics (`d.get(k)`): the
value of the first entry whose key equals `k`, else `none`. -/
def aget {α : Type} (m : List (String × α)) (k : String) : Option α :=
  match m with
  | [] => none
  | e :: rest => if e.1 == k then some e.2 else aget rest k

/-- `d.get(k)` on a dict whose stored values may themselves be `None`
(YAML `null`): an absent key and a null value both give `none`. -/
def agetN (m : List (String × Option String)) (k : String) : Option String :=
  match aget m k with
  | some v => v
  | none => none

/-- Python truthiness filter on an optional string: `if x:` rejects both
`None` and the empty string. -/
def truthyOpt : Option String → Option String
  | some s => if s = "" then none else some s
  | none => none

/-- Python `a or b` on optional strings: `b` whenever `a` is falsy
(`None` or `""`). -/
def pyOr (a b : Option String) : Option String :=
  match a with
  | some s => if s = "" then b else some s
  | none => b

/-- A raw role spec as read from `roles.yaml`: a bare string, a mapping
(with possibly-null values), or any other YAML value. -/
inductive RSpec where
  | str (s : String)
  | map (entries : List (String × Option String))
  | other
  deriving DecidableEq, Repr

/-- The normalized role record built by `load_semantic_files`. -/
structure RoleColors where
  foreground : Option String
  background : Option String
  deriving DecidableEq, Repr

/-- The per-role normalization of `load_semantic_files` (lines 144-152):
strings become foreground-only records, mappings pull `foreground`/`fg`
and `background`/`bg` through Python `or`, anything else is rejected. -/
def specToColors : RSpec → Option RoleColors
  | .str s => some { foreground := some s, background := none }
  | .map e =>
      some { foreground := pyOr (agetN e "foreground") (agetN e "fg"),
             background := pyOr (agetN e "background") (agetN e "bg") }
  | .other => none

/-- The roles half of `load_semantic_files`: normalize each role spec in
order, recording the names of skipped (warned-about) roles. -/
def loadRoles : List (String × RSpec) → List (String × RoleColors) × List String
  | [] => ([], [])
  | (r, sp) :: rest =>
    let t := loadRoles rest
    match specToColors sp with
    | some rc => ((r, rc) :: t.1, t.2)
    | none => (t.1, r :: t.2)

/-- A warning printed by `build_role_color_maps`: the palette has no hex
for the named foreground or background color of the given role. -/
inductive Warn where
  | fgMissing (name role : String)
  | bgMissing (name role : String)
  deriving DecidableEq, Repr

/-- Result of `build_role_color_maps`: the two role→hex maps and the
warnings printed while building them. -/
structure BuildResult where
  fgMap : List (String × String)
  bgMap : List (String × String)
  warns : List Warn
  deriving DecidableEq, Repr

/-- One name resolution step of `build_role_color_maps` (lines 162-167 for
foreground, 168-173 for background): a truthy color name is looked up in
the palette; a truthy hex enters the map, otherwise a warning is emitted;
a falsy (absent/empty) name is skipped silently. -/
def rolePart (r : String) (nameOpt : Option String) (pal : List (String × String))
    (mkWarn : String → String → Warn) : List (String × String) × List Warn :=
  match truthyOpt nameOpt with
  | none => ([], [])
  | some n =>
    match truthyOpt (aget pal n) with
    | some h => ([(r, h)], [])
    | none => ([], [mkWarn n r])

/-- Embedding of `build_role_color_maps` (lines 156-174).  For each role in
order: a truthy foreground name is looked up in the palette, entering the
foreground map when the lookup yields a truthy hex and warning otherwise;
the background name is treated the same way into its own map. -/
def build_role_color_maps :
    List (String × RoleColors) → List (String × String) → BuildResult
  | [], _ => { fgMap := [], bgMap := [], warns := [] }
  | (r, sp) :: rest, pal =>
    let t := build_role_color_maps rest pal
    let fgPart := rolePart r sp.foreground pal Warn.fgMissing
    let bgPart := rolePart r sp.background pal Warn.bgMissing
    { fgMap := fgPart.1 ++ t.fgMap,
      bgMap := bgPart.1 ++ t.bgMap,
      warns := fgPart.2 ++ bgPart.2 ++ t.warns }

/-- A `[background, foreground]` pair while `apply_semantic` processes it. -/
structure PairSt where
  bg : YVal
  fg : YVal
  deriving DecidableEq, Repr

/-- Foreground half of the matched-role body (lines 217-225): if the role
resolves to a truthy foreground hex and the current slot is a string that
differs case-insensitively, the change is planned, and applied (with the
counter bumped) unless this is a dry run. -/
def fgStep (dry : Bool) (tOpt : Option String) (p : PairSt) : PairSt × Nat × Nat :=
  match truthyOpt tOpt with
  | none => (p, 0, 0)
  | some t =>
    match p.fg with
    | .s cur =>
      if pyUpperS cur ≠ pyUpperS t then
        if dry then (p, 1, 0) else ({ p with fg := .s t }, 1, 1)
      else (p, 0, 0)
    | .other => (p, 0, 0)

/-- Background half of the matched-role body (lines 227-237): same as the
foreground, except that a background matching the exact flag pattern is
skipped before any comparison. -/
def bgStep (dry : Bool) (tOpt : Option String) (p : PairSt) : PairSt × Nat × Nat :=
  match truthyOpt tOpt with
  | none => (p, 0, 0)
  | some t =>
    match p.bg with
    | .s cur =>
      if isFlagExact cur.data then (p, 0, 0)
      else if pyUpperS cur ≠ pyUpperS t then
        if dry then (p, 1, 0) else ({ p with bg := .s t }, 1, 1)
      else (p, 0, 0)
    | .other => (p, 0, 0)

/-- Body run for the first role claiming a key: foreground update, then
background update on the (possibly already modified) pair; the planned and
applied counts of both are summed. -/
def applyRolePair (dry : Bool) (fgT bgT : Option String) (p : PairSt) :
    PairSt × Nat × Nat :=
  let f := fgStep dry fgT p
  let b := bgStep dry bgT f.1
  (b.1, f.2.1 + b.2.1, f.2.2 + b.2.2)

/-- The role loop of `apply_semantic` (lines 214-238): scan roles in order
and run the update body for the first role whose (lowercased) key set
contains the lowercased theme key, then break. -/
def scanRoles (dry : Bool) (mci : List (String × List String))
    (fgm bgm : List (String × String)) (keyCi : String) (p : PairSt) :
    PairSt × Nat × Nat :=
  match mci with
  | [] => (p, 0, 0)
  | (r, ks) :: rest =>
    if keyCi ∈ ks then applyRolePair dry (aget fgm r) (aget bgm r) p
    else scanRoles dry rest fgm bgm keyCi p

/-- `role_to_keys_ci` (line 205): each role's key list lowercased. -/
def lowerMappings (m : List (String × List String)) : List (String × List String) :=
  m.map (fun e => (e.1, e.2.map pyLowerS))

/-- One key of a section in semantic mode: `GUID` and non-pairs skipped,
otherwise the role scan runs on the lowercased key. -/
def procEntry (dry : Bool) (mci : List (String × List String))
    (fgm bgm : List (String × String)) (key : String) (it : Item) :
    Item × Nat × Nat :=
  match it with
  | .notPair => (it, 0, 0)
  | .pair bg fg =>
    if key == "GUID" then (it, 0, 0)
    else
      let r := scanRoles dry mci fgm bgm (pyLowerS key) { bg := bg, fg := fg }
      (.pair r.1.bg r.1.fg, r.2.1, r.2.2)

def semEntries (dry : Bool) (mci : List (String × List String))
    (fgm bgm : List (String × String)) :
    List (String × Item) → List (String × Item) × Nat × Nat
  | [] => ([], 0, 0)
  | e :: rest =>
    let x := procEntry dry mci fgm bgm e.1 e.2
    let r := semEntries dry mci fgm bgm rest
    ((e.1, x.1) :: r.1, x.2.1 + r.2.1, x.2.2 + r.2.2)

def semSection (dry : Bool) (mci : List (String × List String))
    (fgm bgm : List (String × String)) : Sect → Sect × Nat × Nat
  | .notDict => (.notDict, 0, 0)
  | .dict es =>
    let r := semEntries dry mci fgm bgm es
    (.dict r.1, r.2)

def semSections (dry : Bool) (mci : List (String × List String))
    (fgm bgm : List (String × String)) : Doc → Doc × Nat × Nat
  | [] => ([], 0, 0)
  | s :: rest =>
    let x := semSection dry mci fgm bgm s.2
    let r := semSections dry mci fgm bgm rest
    ((s.1, x.1) :: r.1, x.2.1 + r.2.1, x.2.2 + r.2.2)

/-- Result of `apply_semantic`: the in-memory document after the loop, the
value the function returns, the length of the `planned` list, and whether
the file was written back. -/
structure SemResult where
  doc : Doc
  ret : Nat
  planned : Nat
  wrote : Bool
  deriving DecidableEq, Repr

/-- Embedding of `apply_semantic` (lines 186-248, reporting aside): in
dry-run mode the function prints the plan, returns 0 and does not write;
otherwise it writes the mutated document and returns the change count. -/
def apply_semantic (doc : Doc) (mappings : List (String × List String))
    (fgm bgm : List (String × String)) (dry : Bool) : SemResult :=
  let mci := lowerMappings mappings
  let r := semSections dry mci fgm bgm doc
  { doc := r.1, ret := if dry then 0 else r.2.2, planned := r.2.1, wrote := !dry }

/-- Python dict insertion `rows[name] = hx`: overwrite in place if the key
exists, else append. -/
def insertOW (m : List (String × String)) (k v : String) : List (String × String) :=
  if m.any (fun e => e.1 == k) then
    m.map (fun e => if e.1 == k then (e.1, v) else e)
  else m ++ [(k, v)]

/-- One line against the row regex of `parse_palette_md` (line 48):
`^\|\s*([^|]+?)\s*\|\s*(#hex)\s*\|`, returning the stripped name and the
uppercased hex on a match. -/
def parseRow (l : List Char) : Option (String × String) :=
  match l with
  | '|' :: rest =>
    let cell := rest.takeWhile (fun c => c ≠ '|')
    if cell = [] then none
    else
      match rest.dropWhile (fun c => c ≠ '|') with
      | '|' :: rest3 =>
        match rest3.dropWhile Char.isWhitespace with
        | '#' :: hx =>
          let run := hx.takeWhile isHexDigitC
          if (run.length = 6 ∨ run.length = 8) ∧
              ((hx.drop run.length).dropWhile Char.isWhitespace).take 1 = ['|'] then
            some (String.mk (pyStrip cell), pyUpperS (String.mk ('#' :: run)))
          else none
        | _ => none
      | _ => none
  | _ => none

/-- Embedding of `parse_palette_md` (lines 37-56) on the file's lines:
fold matching rows into the name→hex dict, then return the set of hex
values (as a duplicate-free list) together with the dict. -/
def parse_palette_md (lines : List String) : List String × List (String × String) :=
  let rows := lines.foldl
    (fun m line =>
      match parseRow line.data with
      | some nh => insertOW m nh.1 nh.2
      | none => m) []
  ((rows.map Prod.snd).dedup, rows)

/-- The normalized string ends in a whitespace character (the situation in
which a second normalization pass can strip further). -/
def endsWithWs (s : String) : Bool :=
  match s.data.getLast? with
  | some c => c.isWhitespace
  | none => false


/-! ## Helper lemmas -/

theorem pyUpperChar_idem (c : Char) : pyUpperChar (pyUpperChar c) = pyUpperChar c := by
  unfold pyUpperChar
  by_cases h : 97 ≤ c.toNat ∧ c.toNat ≤ 122
  · rw [if_pos h]
    obtain ⟨h1, h2⟩ := h
    obtain ⟨n, hn⟩ : ∃ n, c.toNat = n := ⟨_, rfl⟩
    rw [hn] at h1 h2 ⊢
    interval_cases n <;> decide
  · rw [if_neg h, if_neg h]

theorem pyUpperChar_of_upperHex (c : Char) (h : isUpperHexDigit c = true) :
    pyUpperChar c = c := by
  unfold isUpperHexDigit at h
  simp only [Bool.or_eq_true, Bool.and_eq_true, decide_eq_true_eq] at h
  unfold pyUpperChar
  rw [if_neg]
  omega

theorem not_ws_of_upperHex (c : Char) (h : isUpperHexDigit c = true) :
    c.isWhitespace = false := by
  cases hw : c.isWhitespace
  · rfl
  · exfalso
    simp only [Char.isWhitespace, Bool.or_eq_true, decide_eq_true_eq] at hw
    unfold isUpperHexDigit at h
    rcases hw with ((h1 | h1) | h1) | h1 <;> subst h1 <;> simp at h

theorem dropWhile_eq_self_of_head (p : Char → Bool) (l : List Char)
    (h : ∀ c, l.head? = some c → p c = false) : l.dropWhile p = l := by
  cases l with
  | nil => rfl
  | cons a t =>
    rw [List.dropWhile_cons, if_neg]
    simp [h a rfl]

theorem pyStrip_eq_self (l : List Char)
    (h1 : ∀ c, l.head? = some c → c.isWhitespace = false)
    (h2 : ∀ c, l.getLast? = some c → c.isWhitespace = false) : pyStrip l = l := by
  unfold pyStrip
  rw [dropWhile_eq_self_of_head _ _ h1]
  rw [dropWhile_eq_self_of_head _ _ (fun c hc => h2 c (by rwa [List.head?_reverse] at hc))]
  exact l.reverse_reverse

theorem map_fixed (f : Char → Char) :
    ∀ l : List Char, (∀ c ∈ l, f c = c) → l.map f = l
  | [], _ => rfl
  | a :: t, h => by
    have ha : f a = a := h a (by simp)
    have ht := map_fixed f t (fun c hc => h c (by simp [hc]))
    simp [ha, ht]

theorem mem_ncCore_fixed (l : List Char) (c : Char) (hc : c ∈ ncCore l) :
    pyUpperChar c = c := by
  have hmem : c ∈ pyUpper (pyStrip l) := by
    simp only [ncCore] at hc
    split at hc
    · split at hc
      · exact ((List.dropLast_sublist _).trans (List.drop_sublist _ _)).subset hc
      · exact (List.drop_sublist _ _).subset hc
    · split at hc
      · exact (List.drop_sublist _ _).subset hc
      · exact hc
  obtain ⟨d, _, hd⟩ := List.mem_map.mp hmem
  rw [← hd]
  exact pyUpperChar_idem d

theorem ncCore_hash_cons (x : Char) (t : List Char)
    (hfix : ∀ c ∈ x :: t, pyUpperChar c = c)
    (hws : ∀ c, (x :: t).getLast? = some c → c.isWhitespace = false) :
    ncCore ('#' :: x :: t) = x :: t := by
  have hstrip : pyStrip ('#' :: x :: t) = '#' :: x :: t := by
    apply pyStrip_eq_self
    · intro c h
      simp only [List.head?_cons, Option.some.injEq] at h
      subst h
      decide
    · intro c h
      rw [List.getLast?_cons_cons] at h
      exact hws c h
  have hupper : pyUpper ('#' :: x :: t) = '#' :: x :: t := by
    apply map_fixed
    intro c hc
    rcases List.mem_cons.mp hc with h | h
    · subst h; decide
    · exact hfix c h
  simp only [ncCore]
  rw [hstrip, hupper]
  have hne : ¬ (('#' :: x :: t).take 2 = ['"', '#']) := by
    simp only [List.take_succ_cons]
    intro h
    have := (List.cons.injEq _ _ _ _).mp h
    exact absurd this.1 (by decide)
  rw [if_neg hne, if_pos (by simp)]
  rfl

theorem mem_of_getLast?_eq (l : List Char) (d : Char) (hd : l.getLast? = some d) :
    d ∈ l := by
  obtain ⟨hne, heq⟩ := List.mem_getLast?_eq_getLast (l := l) (x := d) (by rw [hd]; rfl)
  rw [heq]
  exact List.getLast_mem hne

/-! ## Claim C3: idempotence of `normalize_color` -/

/-- Claim C3 counterexample: on the quoted input `"#A "` (double quote, hash,
letter, space, double quote) the first normalization pass yields `#A ` with a
trailing space, and a second pass strips that space, so
`normalize_color` is not idempotent on every string as the claim states. -/
theorem c3_not_idempotent_quoted_space :
    normalize_color (normalize_color "\"#A \"") ≠ normalize_color "\"#A \"" := by
  decide

/-- Claim C3 (amended): `normalize_color` is idempotent on every input whose
normalized form has no trailing whitespace character (the quoted-content
trailing-whitespace case is the only way a second pass can differ); in
particular every already-canonical value (`#` plus 6 or 8 uppercase hex
digits) is returned unchanged. -/
theorem c3_idempotent_no_trailing_ws :
    (∀ s : String, endsWithWs (normalize_color s) = false →
      normalize_color (normalize_color s) = normalize_color s) ∧
    (∀ s : String, isCanonicalHex s = true → normalize_color s = s) := by
  constructor
  · intro s h
    cases hv : ncCore s.data with
    | nil =>
      have hs : normalize_color s = s := by simp [normalize_color, hv]
      rw [hs]
      exact hs
    | cons x t =>
      have hfix : ∀ c ∈ x :: t, pyUpperChar c = c := by
        intro c hc
        exact mem_ncCore_fixed s.data c (hv ▸ hc)
      have h1 : normalize_color s = String.mk ('#' :: x :: t) := by
        simp [normalize_color, hv]
      rw [h1] at h ⊢
      have hws : ∀ c, (x :: t).getLast? = some c → c.isWhitespace = false := by
        intro c hc
        unfold endsWithWs at h
        rw [show (String.mk ('#' :: x :: t)).data = '#' :: x :: t from rfl] at h
        rw [List.getLast?_cons_cons, hc] at h
        exact h
      have hcore : ncCore ('#' :: x :: t) = x :: t := ncCore_hash_cons x t hfix hws
      simp [normalize_color, hcore]
  · intro s h
    obtain ⟨l⟩ := s
    cases l with
    | nil => simp [isCanonicalHex] at h
    | cons c rest =>
      simp only [isCanonicalHex, Bool.and_eq_true, beq_iff_eq, Bool.or_eq_true,
        List.all_eq_true] at h
      obtain ⟨⟨hc, hlen⟩, hall⟩ := h
      subst hc
      obtain ⟨x, t, rfl⟩ : ∃ x t, rest = x :: t := by
        cases rest with
        | nil => simp at hlen
        | cons x t => exact ⟨x, t, rfl⟩
      have hfix : ∀ d ∈ x :: t, pyUpperChar d = d := fun d hd =>
        pyUpperChar_of_upperHex d (hall d hd)
      have hws : ∀ d, (x :: t).getLast? = some d → d.isWhitespace = false := fun d hd =>
        not_ws_of_upperHex d (hall d (mem_of_getLast?_eq _ d hd))
      have hcore : ncCore ('#' :: x :: t) = x :: t := ncCore_hash_cons x t hfix hws
      show normalize_color (String.mk ('#' :: x :: t)) = String.mk ('#' :: x :: t)
      simp [normalize_color, hcore]

/-- Witness for the amended C3 theorem at concrete inputs. -/
theorem c3_idempotent_no_trailing_ws_witness :
    (endsWithWs (normalize_color "x") = false ∧
      normalize_color (normalize_color "x") = normalize_color "x") ∧
    (isCanonicalHex "#00D1FF" = true ∧ normalize_color "#00D1FF" = "#00D1FF") :=
  ⟨⟨by decide, c3_idempotent_no_trailing_ws.1 "x" (by decide)⟩,
   ⟨by decide, c3_idempotent_no_trailing_ws.2 "#00D1FF" (by decide)⟩⟩

/-! ## Association-list helper lemmas -/

theorem aget_cons {α : Type} (e : String × α) (m : List (String × α)) (k : String) :
    aget (e :: m) k = if e.1 == k then some e.2 else aget m k := rfl

theorem aget_append_none {α : Type} :
    ∀ (l1 l2 : List (String × α)) (k : String),
      (∀ e ∈ l1, (e.1 == k) = false) → aget (l1 ++ l2) k = aget l2 k
  | [], _, _, _ => rfl
  | e :: t, l2, k, h => by
    have he : (e.1 == k) = false := h e (List.mem_cons_self e t)
    have hne : ¬ ((e.1 == k) = true) := by simp [he]
    rw [List.cons_append, aget_cons, if_neg hne]
    exact aget_append_none t l2 k (fun x hx => h x (List.mem_cons_of_mem e hx))

theorem aget_map_replace (k v : String) :
    ∀ m : List (String × String), m.any (fun e => e.1 == k) = true →
      aget (m.map (fun e => if e.1 == k then (e.1, v) else e)) k = some v
  | [], h => by simp at h
  | e :: t, h => by
    cases he : (e.1 == k) with
    | true =>
      have heq : e.1 = k := by simpa using he
      subst heq
      simp [aget_cons]
    | false =>
      simp only [List.map_cons, he, Bool.false_eq_true, if_false, aget_cons]
      exact aget_map_replace k v t (by simpa [List.any_cons, he] using h)

theorem aget_insertOW (m : List (String × String)) (k v : String) :
    aget (insertOW m k v) k = some v := by
  unfold insertOW
  cases h : m.any (fun e => e.1 == k) with
  | true =>
    rw [if_pos rfl]
    exact aget_map_replace k v m h
  | false =>
    rw [if_neg (by simp)]
    rw [aget_append_none m [(k, v)] k (fun e he => by
      cases hb : (e.1 == k) with
      | true => exact absurd hb (List.any_eq_false.mp h e he)
      | false => rfl)]
    rw [aget_cons, if_pos (by simp)]

/-! ## Flag-pattern lemmas -/

theorem isFlagStart_of_exact (l : List Char) (h : isFlagExact l = true) :
    isFlagStart l = true := by
  rcases l with _ | ⟨c1, _ | ⟨c2, _ | ⟨c3, rest⟩⟩⟩
  · simp [isFlagExact] at h
  · simp [isFlagExact] at h
  · simp [isFlagExact] at h
  · simp only [isFlagExact, Bool.and_eq_true, beq_iff_eq] at h
    obtain ⟨⟨⟨⟨h1, h2⟩, h3⟩, h4⟩, h5⟩ := h
    have htake : rest.take 8 = rest := List.take_of_length_le (by omega)
    simp only [isFlagStart, Bool.and_eq_true, beq_iff_eq, htake]
    exact ⟨⟨⟨⟨h1, h2⟩, h3⟩, h4⟩, h5⟩

theorem normSlot_flag (v : String) (h : isFlagExact v.data = true) :
    normSlot (.s v) = (.s v, 0) := by
  simp [normSlot, isFlagStart_of_exact _ h]

theorem fgStep_bg (dry : Bool) (t : Option String) (p : PairSt) :
    ((fgStep dry t p).1).bg = p.bg := by
  obtain ⟨pbg, pfg⟩ := p
  unfold fgStep
  cases truthyOpt t with
  | none => rfl
  | some s =>
    cases pfg with
    | s cur =>
      dsimp only
      split
      · split <;> rfl
      · rfl
    | other => rfl

theorem bgStep_flag (dry : Bool) (t : Option String) (p : PairSt) (cur : String)
    (hbg : p.bg = .s cur) (h : isFlagExact cur.data = true) :
    (bgStep dry t p).1 = p := by
  obtain ⟨pbg, pfg⟩ := p
  dsimp only at hbg
  subst hbg
  unfold bgStep
  cases truthyOpt t with
  | none => rfl
  | some s =>
    dsimp only
    rw [if_pos h]

theorem applyRolePair_flag_bg (dry : Bool) (fT bT : Option String) (p : PairSt)
    (cur : String) (hbg : p.bg = .s cur) (h : isFlagExact cur.data = true) :
    ((applyRolePair dry fT bT p).1).bg = p.bg := by
  unfold applyRolePair
  dsimp only
  have h1 : (fgStep dry fT p).1.bg = p.bg := fgStep_bg dry fT p
  have h2 : (bgStep dry bT (fgStep dry fT p).1).1 = (fgStep dry fT p).1 :=
    bgStep_flag dry bT (fgStep dry fT p).1 cur (h1.trans hbg) h
  rw [h2, h1]

theorem scanRoles_flag_bg (dry : Bool) :
    ∀ (mci : List (String × List String)) (fgm bgm : List (String × String))
      (key : String) (p : PairSt) (cur : String),
      p.bg = .s cur → isFlagExact cur.data = true →
      ((scanRoles dry mci fgm bgm key p).1).bg = p.bg
  | [], _, _, _, _, _, _, _ => rfl
  | (r, ks) :: rest, fgm, bgm, key, p, cur, hbg, h => by
    unfold scanRoles
    split
    · exact applyRolePair_flag_bg dry (aget fgm r) (aget bgm r) p cur hbg h
    · exact scanRoles_flag_bg dry rest fgm bgm key p cur hbg h

/-! ## Claim C2: flag-coded values and the rewrite modes -/

/-- Claim C2 counterexample: semantic mode has no flag guard on the
foreground slot, so a foreground holding the flag code `05x00000000` under a
key claimed by a role with a foreground color is overwritten. -/
theorem c2_flag_foreground_overwritten :
    isFlagExact ("05x00000000").data = true ∧
    (apply_semantic
        [("S", Sect.dict [("k", Item.pair (.s "#000000") (.s "05x00000000"))])]
        [("accent", ["k"])] [("accent", "#00D1FF")] [] false).doc =
      [("S", Sect.dict [("k", Item.pair (.s "#000000") (.s "#00D1FF"))])] := by
  decide

/-- Claim C2 (amended): a slot matching the flag-code pattern is never
altered by normalize mode (in either position), and never altered by
semantic mode in the background position; semantic mode does not guard the
foreground position. -/
theorem c2_flag_values_guarded :
    (∀ v : String, isFlagExact v.data = true → normSlot (.s v) = (.s v, 0)) ∧
    (∀ (dry : Bool) (mci : List (String × List String))
        (fgm bgm : List (String × String)) (key : String) (p : PairSt) (cur : String),
        p.bg = .s cur → isFlagExact cur.data = true →
        ((scanRoles dry mci fgm bgm key p).1).bg = p.bg) :=
  ⟨fun v h => normSlot_flag v h,
   fun dry mci fgm bgm key p cur hbg h =>
     scanRoles_flag_bg dry mci fgm bgm key p cur hbg h⟩

/-- Witness for the amended C2 theorem at a concrete flag value. -/
theorem c2_flag_values_guarded_witness :
    normSlot (.s "05x00000000") = (.s "05x00000000", 0) ∧
    ((scanRoles false [("a", ["k"])] [("a", "#00D1FF")] [("a", "#111111")] "k"
        { bg := .s "05x00000000", fg := .s "#000000" }).1).bg = .s "05x00000000" :=
  ⟨c2_flag_values_guarded.1 "05x00000000" (by decide),
   c2_flag_values_guarded.2 false [("a", ["k"])] [("a", "#00D1FF")] [("a", "#111111")]
     "k" { bg := .s "05x00000000", fg := .s "#000000" } "05x00000000" rfl (by decide)⟩

/-! ## Claim C1: normalize mode on a lowercase hex value -/

/-- Claim C1 evaluation at the failing input: `update_yaml_colors` compares
the normalized form against the quote-stripped UPPERCASED original
(line 113), so a slot holding `#00d1ff` is judged unchanged — the slot keeps
its lowercase value and the counter stays 0, although the module docstring
promises that normalization "ensures all hex colors are uppercase".  The
second slot checks the claim's other half: `#00D1FF` is left alone. -/
theorem c1_normalize_counter_eval :
    update_yaml_colors
        [("Colors", Sect.dict [("Key", Item.pair (.s "#00d1ff") (.s "#00D1FF"))])] [] =
      { doc := [("Colors", Sect.dict [("Key", Item.pair (.s "#00d1ff") (.s "#00D1FF"))])],
        count := 0, wrote := true } ∧
    normSlot (.s "#00d1ff") = (.s "#00d1ff", 0) := by
  decide

/-! ## Claim C5: the concrete semantic-mode scenario -/

/-- Claim C5: the full pipeline on the spec's concrete scenario — loading
role `accent` with `fg: Cyan Glow` and `bg: Void Black`, resolving both
against the palette, and applying to `Tab.Active: [#000000, #FF0000]`
rewrites the pair to `[#0A0A0A, #00D1FF]` with applied count 2. -/
theorem c5_semantic_concrete :
    loadRoles [("accent", RSpec.map [("fg", some "Cyan Glow"), ("bg", some "Void Black")])] =
      ([("accent", { foreground := some "Cyan Glow", background := some "Void Black" })], []) ∧
    build_role_color_maps
        [("accent", { foreground := some "Cyan Glow", background := some "Void Black" })]
        [("Cyan Glow", "#00D1FF"), ("Void Black", "#0A0A0A")] =
      { fgMap := [("accent", "#00D1FF")], bgMap := [("accent", "#0A0A0A")], warns := [] } ∧
    apply_semantic
        [("Sec", Sect.dict [("Tab.Active", Item.pair (.s "#000000") (.s "#FF0000"))])]
        [("accent", ["Tab.Active"])] [("accent", "#00D1FF")] [("accent", "#0A0A0A")]
        false =
      { doc := [("Sec", Sect.dict
          [("Tab.Active", Item.pair (.s "#0A0A0A") (.s "#00D1FF"))])],
        ret := 2, planned := 2, wrote := true } := by
  decide

/-! ## Claim C7: palette rows overwrite by name -/

/-- Claim C7: inserting under an existing name overwrites it (a later row
with the same name wins), the duplicate-row example yields exactly one
color-set element and one name entry, and a lowercase hex row is recorded
uppercased. -/
theorem c7_palette_overwrite :
    (∀ (m : List (String × String)) (k v : String), aget (insertOW m k v) k = some v) ∧
    parse_palette_md ["| Cyan Glow | #00D1FF |", "| Cyan Glow | #00D1FF |"] =
      (["#00D1FF"], [("Cyan Glow", "#00D1FF")]) ∧
    parse_palette_md ["| Cyan Glow | #00d1ff |"] =
      (["#00D1FF"], [("Cyan Glow", "#00D1FF")]) :=
  ⟨fun m k v => aget_insertOW m k v, by decide, by decide⟩

/-! ## Claim C10: normalize mode always writes -/

/-- Claim C10: the write in `update_yaml_colors` is unconditional — the
result records a write for every document, including one on which it
performs zero replacements. -/
theorem c10_normalize_always_writes :
    (∀ (doc : Doc) (pal : List String), (update_yaml_colors doc pal).wrote = true) ∧
    ((update_yaml_colors
        [("S", Sect.dict [("K", Item.pair (.s "#00D1FF") (.s "#00D1FF"))])] []).count = 0 ∧
      (update_yaml_colors
        [("S", Sect.dict [("K", Item.pair (.s "#00D1FF") (.s "#00D1FF"))])] []).wrote = true) :=
  ⟨fun _ _ => rfl, by decide, by decide⟩

/-! ## Dry-run lemmas for `apply_semantic` (claim C4) -/

/-- The (planned, applied) contribution of the foreground update, as a
function of the foreground slot alone. -/
def fgCounts (dry : Bool) (tOpt : Option String) (v : YVal) : Nat × Nat :=
  match truthyOpt tOpt with
  | none => (0, 0)
  | some t =>
    match v with
    | .s cur =>
      if pyUpperS cur ≠ pyUpperS t then
        if dry then (1, 0) else (1, 1)
      else (0, 0)
    | .other => (0, 0)

/-- The (planned, applied) contribution of the background update, as a
function of the background slot alone. -/
def bgCounts (dry : Bool) (tOpt : Option String) (v : YVal) : Nat × Nat :=
  match truthyOpt tOpt with
  | none => (0, 0)
  | some t =>
    match v with
    | .s cur =>
      if isFlagExact cur.data then (0, 0)
      else if pyUpperS cur ≠ pyUpperS t then
        if dry then (1, 0) else (1, 1)
      else (0, 0)
    | .other => (0, 0)

theorem fgStep_counts (dry : Bool) (t : Option String) (p : PairSt) :
    (fgStep dry t p).2 = fgCounts dry t p.fg := by
  obtain ⟨pbg, pfg⟩ := p
  unfold fgStep fgCounts
  cases truthyOpt t with
  | none => rfl
  | some tv =>
    cases pfg with
    | s cur =>
      dsimp only
      split
      · cases dry <;> rfl
      · rfl
    | other => rfl

theorem bgStep_counts (dry : Bool) (t : Option String) (p : PairSt) :
    (bgStep dry t p).2 = bgCounts dry t p.bg := by
  obtain ⟨pbg, pfg⟩ := p
  unfold bgStep bgCounts
  cases truthyOpt t with
  | none => rfl
  | some tv =>
    cases pbg with
    | s cur =>
      dsimp only
      split
      · rfl
      · split
        · cases dry <;> rfl
        · rfl
    | other => rfl

theorem fgStep_dry_pair (t : Option String) (p : PairSt) : (fgStep true t p).1 = p := by
  obtain ⟨pbg, pfg⟩ := p
  unfold fgStep
  cases truthyOpt t with
  | none => rfl
  | some tv =>
    cases pfg with
    | s cur =>
      dsimp only
      split <;> rfl
    | other => rfl

theorem bgStep_dry_pair (t : Option String) (p : PairSt) : (bgStep true t p).1 = p := by
  obtain ⟨pbg, pfg⟩ := p
  unfold bgStep
  cases truthyOpt t with
  | none => rfl
  | some tv =>
    cases pbg with
    | s cur =>
      dsimp only
      split
      · rfl
      · split <;> rfl
    | other => rfl

theorem fgCounts_dry_planned (t : Option String) (v : YVal) :
    (fgCounts true t v).1 = (fgCounts false t v).1 := by
  unfold fgCounts
  cases truthyOpt t with
  | none => rfl
  | some tv => cases v with
    | s cur => dsimp only; split <;> rfl
    | other => rfl

theorem fgCounts_dry_changed (t : Option String) (v : YVal) :
    (fgCounts true t v).2 = 0 := by
  unfold fgCounts
  cases truthyOpt t with
  | none => rfl
  | some tv => cases v with
    | s cur => dsimp only; split <;> rfl
    | other => rfl

theorem fgCounts_wet_changed (t : Option String) (v : YVal) :
    (fgCounts false t v).2 = (fgCounts false t v).1 := by
  unfold fgCounts
  cases truthyOpt t with
  | none => rfl
  | some tv => cases v with
    | s cur => dsimp only; split <;> rfl
    | other => rfl

theorem bgCounts_dry_planned (t : Option String) (v : YVal) :
    (bgCounts true t v).1 = (bgCounts false t v).1 := by
  unfold bgCounts
  cases truthyOpt t with
  | none => rfl
  | some tv => cases v with
    | s cur =>
      dsimp only
      split
      · rfl
      · split <;> rfl
    | other => rfl

theorem bgCounts_dry_changed (t : Option String) (v : YVal) :
    (bgCounts true t v).2 = 0 := by
  unfold bgCounts
  cases truthyOpt t with
  | none => rfl
  | some tv => cases v with
    | s cur =>
      dsimp only
      split
      · rfl
      · split <;> rfl
    | other => rfl

theorem bgCounts_wet_changed (t : Option String) (v : YVal) :
    (bgCounts false t v).2 = (bgCounts false t v).1 := by
  unfold bgCounts
  cases truthyOpt t with
  | none => rfl
  | some tv => cases v with
    | s cur =>
      dsimp only
      split
      · rfl
      · split <;> rfl
    | other => rfl

theorem applyRolePair_counts (dry : Bool) (f b : Option String) (p : PairSt) :
    (applyRolePair dry f b p).2 =
      ((fgCounts dry f p.fg).1 + (bgCounts dry b p.bg).1,
        (fgCounts dry f p.fg).2 + (bgCounts dry b p.bg).2) := by
  unfold applyRolePair
  dsimp only
  rw [fgStep_counts, bgStep_counts, fgStep_bg]

theorem applyRolePair_dry_pair (f b : Option String) (p : PairSt) :
    (applyRolePair true f b p).1 = p := by
  unfold applyRolePair
  dsimp only
  rw [fgStep_dry_pair, bgStep_dry_pair]

theorem applyRolePair_dry_planned (f b : Option String) (p : PairSt) :
    (applyRolePair true f b p).2.1 = (applyRolePair false f b p).2.1 := by
  rw [applyRolePair_counts, applyRolePair_counts]
  dsimp only
  rw [fgCounts_dry_planned, bgCounts_dry_planned]

theorem applyRolePair_dry_changed (f b : Option String) (p : PairSt) :
    (applyRolePair true f b p).2.2 = 0 := by
  rw [applyRolePair_counts]
  dsimp only
  rw [fgCounts_dry_changed, bgCounts_dry_changed]

theorem applyRolePair_wet_changed (f b : Option String) (p : PairSt) :
    (applyRolePair false f b p).2.2 = (applyRolePair false f b p).2.1 := by
  rw [applyRolePair_counts]
  dsimp only
  rw [fgCounts_wet_changed, bgCounts_wet_changed]

theorem scanRoles_dry_pair :
    ∀ (mci : List (String × List String)) (fgm bgm : List (String × String))
      (key : String) (p : PairSt), (scanRoles true mci fgm bgm key p).1 = p
  | [], _, _, _, _ => rfl
  | (r, ks) :: rest, fgm, bgm, key, p => by
    unfold scanRoles
    split
    · exact applyRolePair_dry_pair (aget fgm r) (aget bgm r) p
    · exact scanRoles_dry_pair rest fgm bgm key p

theorem scanRoles_dry_planned :
    ∀ (mci : List (String × List String)) (fgm bgm : List (String × String))
      (key : String) (p : PairSt),
      (scanRoles true mci fgm bgm key p).2.1 = (scanRoles false mci fgm bgm key p).2.1
  | [], _, _, _, _ => rfl
  | (r, ks) :: rest, fgm, bgm, key, p => by
    unfold scanRoles
    split
    · exact applyRolePair_dry_planned (aget fgm r) (aget bgm r) p
    · exact scanRoles_dry_planned rest fgm bgm key p

theorem scanRoles_dry_changed :
    ∀ (mci : List (String × List String)) (fgm bgm : List (String × String))
      (key : String) (p : PairSt), (scanRoles true mci fgm bgm key p).2.2 = 0
  | [], _, _, _, _ => rfl
  | (r, ks) :: rest, fgm, bgm, key, p => by
    unfold scanRoles
    split
    · exact applyRolePair_dry_changed (aget fgm r) (aget bgm r) p
    · exact scanRoles_dry_changed rest fgm bgm key p

theorem scanRoles_wet_changed :
    ∀ (mci : List (String × List String)) (fgm bgm : List (String × String))
      (key : String) (p : PairSt),
      (scanRoles false mci fgm bgm key p).2.2 = (scanRoles false mci fgm bgm key p).2.1
  | [], _, _, _, _ => rfl
  | (r, ks) :: rest, fgm, bgm, key, p => by
    unfold scanRoles
    split
    · exact applyRolePair_wet_changed (aget fgm r) (aget bgm r) p
    · exact scanRoles_wet_changed rest fgm bgm key p

theorem procEntry_dry_item (mci : List (String × List String))
    (fgm bgm : List (String × String)) (key : String) (it : Item) :
    (procEntry true mci fgm bgm key it).1 = it := by
  unfold procEntry
  cases it with
  | notPair => rfl
  | pair bg fg =>
    dsimp only
    split
    · rfl
    · rw [scanRoles_dry_pair]

theorem procEntry_dry_planned (mci : List (String × List String))
    (fgm bgm : List (String × String)) (key : String) (it : Item) :
    (procEntry true mci fgm bgm key it).2.1 = (procEntry false mci fgm bgm key it).2.1 := by
  unfold procEntry
  cases it with
  | notPair => rfl
  | pair bg fg =>
    dsimp only
    split
    · rfl
    · exact scanRoles_dry_planned mci fgm bgm (pyLowerS key) { bg := bg, fg := fg }

theorem procEntry_dry_changed (mci : List (String × List String))
    (fgm bgm : List (String × String)) (key : String) (it : Item) :
    (procEntry true mci fgm bgm key it).2.2 = 0 := by
  unfold procEntry
  cases it with
  | notPair => rfl
  | pair bg fg =>
    dsimp only
    split
    · rfl
    · exact scanRoles_dry_changed mci fgm bgm (pyLowerS key) { bg := bg, fg := fg }

theorem procEntry_wet_changed (mci : List (String × List String))
    (fgm bgm : List (String × String)) (key : String) (it : Item) :
    (procEntry false mci fgm bgm key it).2.2 = (procEntry false mci fgm bgm key it).2.1 := by
  unfold procEntry
  cases it with
  | notPair => rfl
  | pair bg fg =>
    dsimp only
    split
    · rfl
    · exact scanRoles_wet_changed mci fgm bgm (pyLowerS key) { bg := bg, fg := fg }

theorem semEntries_dry_items (mci : List (String × List String))
    (fgm bgm : List (String × String)) :
    ∀ es : List (String × Item), (semEntries true mci fgm bgm es).1 = es
  | [] => rfl
  | e :: rest => by
    unfold semEntries
    dsimp only
    rw [procEntry_dry_item, semEntries_dry_items mci fgm bgm rest]

theorem semEntries_dry_planned (mci : List (String × List String))
    (fgm bgm : List (String × String)) :
    ∀ es : List (String × Item),
      (semEntries true mci fgm bgm es).2.1 = (semEntries false mci fgm bgm es).2.1
  | [] => rfl
  | e :: rest => by
    unfold semEntries
    dsimp only
    rw [procEntry_dry_planned, semEntries_dry_planned mci fgm bgm rest]

theorem semEntries_dry_changed (mci : List (String × List String))
    (fgm bgm : List (String × String)) :
    ∀ es : List (String × Item), (semEntries true mci fgm bgm es).2.2 = 0
  | [] => rfl
  | e :: rest => by
    unfold semEntries
    dsimp only
    rw [procEntry_dry_changed, semEntries_dry_changed mci fgm bgm rest]

theorem semEntries_wet_changed (mci : List (String × List String))
    (fgm bgm : List (String × String)) :
    ∀ es : List (String × Item),
      (semEntries false mci fgm bgm es).2.2 = (semEntries false mci fgm bgm es).2.1
  | [] => rfl
  | e :: rest => by
    unfold semEntries
    dsimp only
    rw [procEntry_wet_changed, semEntries_wet_changed mci fgm bgm rest]

theorem semSection_dry_sect (mci : List (String × List String))
    (fgm bgm : List (String × String)) (s : Sect) :
    (semSection true mci fgm bgm s).1 = s := by
  cases s with
  | notDict => rfl
  | dict es =>
    unfold semSection
    dsimp only
    rw [semEntries_dry_items]

theorem semSection_dry_planned (mci : List (String × List String))
    (fgm bgm : List (String × String)) (s : Sect) :
    (semSection true mci fgm bgm s).2.1 = (semSection false mci fgm bgm s).2.1 := by
  cases s with
  | notDict => rfl
  | dict es =>
    unfold semSection
    dsimp only
    rw [semEntries_dry_planned]

theorem semSection_dry_changed (mci : List (String × List String))
    (fgm bgm : List (String × String)) (s : Sect) :
    (semSection true mci fgm bgm s).2.2 = 0 := by
  cases s with
  | notDict => rfl
  | dict es =>
    unfold semSection
    dsimp only
    rw [semEntries_dry_changed]

theorem semSection_wet_changed (mci : List (String × List String))
    (fgm bgm : List (String × String)) (s : Sect) :
    (semSection false mci fgm bgm s).2.2 = (semSection false mci fgm bgm s).2.1 := by
  cases s with
  | notDict => rfl
  | dict es =>
    unfold semSection
    dsimp only
    rw [semEntries_wet_changed]

theorem semSections_dry_doc (mci : List (String × List String))
    (fgm bgm : List (String × String)) :
    ∀ doc : Doc, (semSections true mci fgm bgm doc).1 = doc
  | [] => rfl
  | s :: rest => by
    unfold semSections
    dsimp only
    rw [semSection_dry_sect, semSections_dry_doc mci fgm bgm rest]

theorem semSections_dry_planned (mci : List (String × List String))
    (fgm bgm : List (String × String)) :
    ∀ doc : Doc,
      (semSections true mci fgm bgm doc).2.1 = (semSections false mci fgm bgm doc).2.1
  | [] => rfl
  | s :: rest => by
    unfold semSections
    dsimp only
    rw [semSection_dry_planned, semSections_dry_planned mci fgm bgm rest]

theorem semSections_dry_changed (mci : List (String × List String))
    (fgm bgm : List (String × String)) :
    ∀ doc : Doc, (semSections true mci fgm bgm doc).2.2 = 0
  | [] => rfl
  | s :: rest => by
    unfold semSections
    dsimp only
    rw [semSection_dry_changed, semSections_dry_changed mci fgm bgm rest]

theorem semSections_wet_changed (mci : List (String × List String))
    (fgm bgm : List (String × String)) :
    ∀ doc : Doc,
      (semSections false mci fgm bgm doc).2.2 = (semSections false mci fgm bgm doc).2.1
  | [] => rfl
  | s :: rest => by
    unfold semSections
    dsimp only
    rw [semSection_wet_changed, semSections_wet_changed mci fgm bgm rest]

/-! ## Claim C4: dry-run behaviour of `apply_semantic` -/

/-- Claim C4: with `dry_run` set, `apply_semantic` never writes the file,
leaves even the in-memory document untouched, returns 0, and its planned
count equals the applied-change count (= return value) of the same call
without `dry_run` — i.e. the number of slots that would differ. -/
theorem c4_dry_run_no_write (doc : Doc) (m : List (String × List String))
    (fgm bgm : List (String × String)) :
    (apply_semantic doc m fgm bgm true).wrote = false ∧
    (apply_semantic doc m fgm bgm true).doc = doc ∧
    (apply_semantic doc m fgm bgm true).ret = 0 ∧
    (apply_semantic doc m fgm bgm true).planned = (apply_semantic doc m fgm bgm false).ret := by
  refine ⟨rfl, ?_, rfl, ?_⟩
  · unfold apply_semantic
    dsimp only
    rw [semSections_dry_doc]
  · unfold apply_semantic
    dsimp only
    rw [semSections_dry_planned, semSections_wet_changed]
    rfl

/-! ## Claim C6: first-match-wins role scanning -/

theorem scanRoles_cons (dry : Bool) (r : String) (ks : List String)
    (rest : List (String × List String)) (fgm bgm : List (String × String))
    (key : String) (p : PairSt) :
    scanRoles dry ((r, ks) :: rest) fgm bgm key p =
      if key ∈ ks then applyRolePair dry (aget fgm r) (aget bgm r) p
      else scanRoles dry rest fgm bgm key p := rfl

/-- Claim C6: only the first role (in the mappings' order) whose lowercased
key set contains the lowercased theme key performs the pair updates; roles
listed after it — including further roles that also claim the key — have no
effect on the result (and the loop emits nothing else). -/
theorem c6_first_match_wins (dry : Bool) (pre : List (String × List String))
    (r : String) (ks : List String) (post : List (String × List String))
    (fgm bgm : List (String × String)) (key : String) (p : PairSt)
    (h1 : ∀ e ∈ pre, pyLowerS key ∉ e.2.map pyLowerS)
    (h2 : pyLowerS key ∈ ks.map pyLowerS) :
    scanRoles dry (lowerMappings (pre ++ (r, ks) :: post)) fgm bgm (pyLowerS key) p =
      applyRolePair dry (aget fgm r) (aget bgm r) p := by
  induction pre with
  | nil =>
    rw [show lowerMappings ([] ++ (r, ks) :: post) =
        (r, ks.map pyLowerS) :: lowerMappings post from rfl]
    rw [scanRoles_cons, if_pos h2]
  | cons e t ih =>
    have hne : pyLowerS key ∉ e.2.map pyLowerS := h1 e (List.mem_cons_self e t)
    rw [show lowerMappings ((e :: t) ++ (r, ks) :: post) =
        (e.1, e.2.map pyLowerS) :: lowerMappings (t ++ (r, ks) :: post) from rfl]
    rw [scanRoles_cons, if_neg hne]
    exact ih (fun x hx => h1 x (List.mem_cons_of_mem e hx))

/-- Witness for C6: with a non-matching role before and another claiming
role after, the match on role `a` alone decides the result. -/
theorem c6_first_match_wins_witness :
    scanRoles false (lowerMappings ([("o", ["zz"])] ++ ("a", ["K"]) :: [("b", ["k"])]))
        [("a", "#00D1FF")] [("a", "#0A0A0A")] (pyLowerS "K")
        { bg := .s "#000000", fg := .s "#FFFFFF" } =
      applyRolePair false (aget [("a", "#00D1FF")] "a") (aget [("a", "#0A0A0A")] "a")
        { bg := .s "#000000", fg := .s "#FFFFFF" } :=
  c6_first_match_wins false [("o", ["zz"])] "a" ["K"] [("b", ["k"])]
    [("a", "#00D1FF")] [("a", "#0A0A0A")] "K"
    { bg := .s "#000000", fg := .s "#FFFFFF" } (by decide) (by decide)

/-! ## Claim C8: unresolved palette names in `build_role_color_maps` -/

theorem rolePart_keys (r : String) (nm : Option String) (pal : List (String × String))
    (w : String → String → Warn) : ∀ e ∈ (rolePart r nm pal w).1, e.1 = r := by
  unfold rolePart
  split
  · intro e he; cases he
  · split
    · intro e he
      obtain rfl := List.mem_singleton.mp he
      rfl
    · intro e he; cases he

theorem rolePart_missing (r : String) (nm : Option String) (pal : List (String × String))
    (w : String → String → Warn) (n : String) (h1 : nm = some n) (h2 : n ≠ "")
    (h3 : aget pal n = none) : rolePart r nm pal w = ([], [w n r]) := by
  subst h1
  unfold rolePart
  rw [show truthyOpt (some n) = some n from by simp [truthyOpt, h2]]
  dsimp only
  rw [h3]
  rfl

theorem aget_part_append (part tail : List (String × String)) (r x : String)
    (hpart : ∀ e ∈ part, e.1 = r) (hrx : r ≠ x) (htail : aget tail x = none) :
    aget (part ++ tail) x = none := by
  rw [aget_append_none part tail x (fun e he => by
    rw [hpart e he]
    exact beq_eq_false_iff_ne.mpr hrx)]
  exact htail

theorem build_absent :
    ∀ (roles : List (String × RoleColors)) (pal : List (String × String)) (x : String),
      (∀ e ∈ roles, e.1 ≠ x) →
      aget (build_role_color_maps roles pal).fgMap x = none ∧
      aget (build_role_color_maps roles pal).bgMap x = none
  | [], _, _, _ => ⟨rfl, rfl⟩
  | (r, sp) :: rest, pal, x, h => by
    have hrx : r ≠ x := h (r, sp) (List.mem_cons_self _ _)
    have ht := build_absent rest pal x (fun e he => h e (List.mem_cons_of_mem _ he))
    unfold build_role_color_maps
    dsimp only
    exact ⟨aget_part_append _ _ r x (rolePart_keys r sp.foreground pal Warn.fgMissing) hrx ht.1,
           aget_part_append _ _ r x (rolePart_keys r sp.background pal Warn.bgMissing) hrx ht.2⟩

theorem c8_aux :
    ∀ (roles : List (String × RoleColors)) (pal : List (String × String))
      (r : String) (sp : RoleColors) (n : String),
      (roles.map Prod.fst).Nodup → (r, sp) ∈ roles →
      ((sp.foreground = some n → n ≠ "" → aget pal n = none →
          aget (build_role_color_maps roles pal).fgMap r = none ∧
          Warn.fgMissing n r ∈ (build_role_color_maps roles pal).warns) ∧
       (sp.background = some n → n ≠ "" → aget pal n = none →
          aget (build_role_color_maps roles pal).bgMap r = none ∧
          Warn.bgMissing n r ∈ (build_role_color_maps roles pal).warns))
  | [], _, _, _, _, _, hmem => absurd hmem (List.not_mem_nil _)
  | (r', sp') :: rest, pal, r, sp, n, hnd, hmem => by
    rw [List.map_cons] at hnd
    have hr'notin : r' ∉ rest.map Prod.fst := (List.nodup_cons.mp hnd).1
    have hnd' : (rest.map Prod.fst).Nodup := (List.nodup_cons.mp hnd).2
    rcases List.mem_cons.mp hmem with heq | hmem'
    · injection heq with hr hsp
      subst hr
      subst hsp
      have habsent : ∀ e ∈ rest, e.1 ≠ r := by
        intro e he hx
        exact hr'notin (hx ▸ List.mem_map_of_mem Prod.fst he)
      constructor
      · intro hfg hne hpal
        unfold build_role_color_maps
        dsimp only
        rw [rolePart_missing r sp.foreground pal Warn.fgMissing n hfg hne hpal]
        constructor
        · simpa using (build_absent rest pal r habsent).1
        · simp
      · intro hbg hne hpal
        unfold build_role_color_maps
        dsimp only
        rw [rolePart_missing r sp.background pal Warn.bgMissing n hbg hne hpal]
        constructor
        · simpa using (build_absent rest pal r habsent).2
        · simp
    · have hrin : r ∈ rest.map Prod.fst := List.mem_map_of_mem Prod.fst hmem'
      have hr'ne : r' ≠ r := fun hx => hr'notin (hx ▸ hrin)
      have iht := c8_aux rest pal r sp n hnd' hmem'
      constructor
      · intro hfg hne hpal
        obtain ⟨habs, hwarn⟩ := iht.1 hfg hne hpal
        unfold build_role_color_maps
        dsimp only
        constructor
        · exact aget_part_append _ _ r' r
            (rolePart_keys r' sp'.foreground pal Warn.fgMissing) hr'ne habs
        · simp only [List.mem_append]
          right
          exact hwarn
      · intro hbg hne hpal
        obtain ⟨habs, hwarn⟩ := iht.2 hbg hne hpal
        unfold build_role_color_maps
        dsimp only
        constructor
        · exact aget_part_append _ _ r' r
            (rolePart_keys r' sp'.background pal Warn.bgMissing) hr'ne habs
        · simp only [List.mem_append]
          right
          exact hwarn

/-- Claim C8 counterexample: a role whose foreground name is the empty
string (reachable via `roles.yaml` `r: \x7bfg: ""\x7d`) and a palette without
that name: the role is omitted from the foreground map, but Python's
truthiness test `if fg_name:` skips the lookup entirely, so no warning is
printed — contradicting the claim that a warning accompanies every
unresolved foreground name. -/
theorem c8_empty_name_no_warning :
    aget ([] : List (String × String)) "" = none ∧
    build_role_color_maps [("r", { foreground := some "", background := none })] [] =
      { fgMap := [], bgMap := [], warns := [] } := by
  decide

/-- Claim C8 (amended): for every role whose foreground (resp. background)
palette name is non-empty and not a key of the palette map, the role is
absent from the corresponding returned map and the matching warning is
emitted; the function is total, so the remaining roles are still resolved. -/
theorem c8_unresolved_name_warns (roles : List (String × RoleColors))
    (pal : List (String × String)) (r : String) (sp : RoleColors) (n : String)
    (hnd : (roles.map Prod.fst).Nodup) (hmem : (r, sp) ∈ roles) :
    (sp.foreground = some n → n ≠ "" → aget pal n = none →
      aget (build_role_color_maps roles pal).fgMap r = none ∧
      Warn.fgMissing n r ∈ (build_role_color_maps roles pal).warns) ∧
    (sp.background = some n → n ≠ "" → aget pal n = none →
      aget (build_role_color_maps roles pal).bgMap r = none ∧
      Warn.bgMissing n r ∈ (build_role_color_maps roles pal).warns) :=
  c8_aux roles pal r sp n hnd hmem

/-- Witness for the amended C8 theorem. -/
theorem c8_unresolved_name_warns_witness :
    aget (build_role_color_maps
        [("r", { foreground := some "Missing", background := none })] []).fgMap "r" = none ∧
    Warn.fgMissing "Missing" "r" ∈ (build_role_color_maps
        [("r", { foreground := some "Missing", background := none })] []).warns :=
  (c8_unresolved_name_warns
      [("r", { foreground := some "Missing", background := none })] []
      "r" { foreground := some "Missing", background := none } "Missing"
      (by decide) (by decide)).1 rfl (by decide) rfl

/-! ## Claim C9: role-spec normalization in `load_semantic_files` -/

theorem pyOr_of_truthy_none (a b : Option String) (h : truthyOpt a = none) :
    pyOr a b = b := by
  cases a with
  | none => rfl
  | some s =>
    unfold truthyOpt at h
    unfold pyOr
    dsimp only at h ⊢
    by_cases hs : s = ""
    · rw [if_pos hs]
    · rw [if_neg hs] at h
      exact absurd h (by simp)

/-- Claim C9 counterexample: with both aliases present —
`foreground: ""` and `fg: "X"` — the claim says the first alias wins, i.e.
the loaded foreground is the empty string; but Python's
`spec.get("foreground") or spec.get("fg")` treats the empty string as falsy
and falls through to `fg`, loading `X`. -/
theorem c9_falsy_alias_fallback :
    agetN [("foreground", some ""), ("fg", some "X")] "foreground" = some "" ∧
    specToColors (.map [("foreground", some ""), ("fg", some "X")]) =
      some { foreground := some "X", background := none } := by
  decide

/-- Claim C9 (amended): a string spec yields a foreground-only record; for
a mapping spec the `foreground` (resp. `background`) key wins over its
short alias exactly when its value is a truthy (non-null, non-empty)
string, and otherwise the `fg` (resp. `bg`) value is used; a spec that is
neither a string nor a mapping is skipped and its role name warned about. -/
theorem c9_role_spec_loading :
    (∀ s : String, specToColors (.str s) =
        some { foreground := some s, background := none }) ∧
    (∀ (e : List (String × Option String)) (v : String),
        agetN e "foreground" = some v → v ≠ "" →
        ∃ rc, specToColors (.map e) = some rc ∧ rc.foreground = some v) ∧
    (∀ e : List (String × Option String),
        truthyOpt (agetN e "foreground") = none →
        ∃ rc, specToColors (.map e) = some rc ∧ rc.foreground = agetN e "fg") ∧
    (∀ (e : List (String × Option String)) (v : String),
        agetN e "background" = some v → v ≠ "" →
        ∃ rc, specToColors (.map e) = some rc ∧ rc.background = some v) ∧
    (∀ e : List (String × Option String),
        truthyOpt (agetN e "background") = none →
        ∃ rc, specToColors (.map e) = some rc ∧ rc.background = agetN e "bg") ∧
    (∀ (role : String) (rest : List (String × RSpec)),
        loadRoles ((role, .other) :: rest) =
          ((loadRoles rest).1, role :: (loadRoles rest).2)) ∧
    (∀ (role s : String) (rest : List (String × RSpec)),
        loadRoles ((role, .str s) :: rest) =
          ((role, { foreground := some s, background := none }) :: (loadRoles rest).1,
            (loadRoles rest).2)) := by
  refine ⟨fun s => rfl, ?_, ?_, ?_, ?_, fun role rest => rfl, fun role s rest => rfl⟩
  · intro e v h hv
    refine ⟨_, rfl, ?_⟩
    show pyOr (agetN e "foreground") (agetN e "fg") = some v
    rw [h]
    unfold pyOr
    dsimp only
    rw [if_neg hv]
  · intro e h
    exact ⟨_, rfl, pyOr_of_truthy_none _ _ h⟩
  · intro e v h hv
    refine ⟨_, rfl, ?_⟩
    show pyOr (agetN e "background") (agetN e "bg") = some v
    rw [h]
    unfold pyOr
    dsimp only
    rw [if_neg hv]
  · intro e h
    exact ⟨_, rfl, pyOr_of_truthy_none _ _ h⟩

/-- Witness for the amended C9 theorem. -/
theorem c9_role_spec_loading_witness :
    (∃ rc, specToColors (.map [("foreground", some "Cyan Glow")]) = some rc ∧
        rc.foreground = some "Cyan Glow") ∧
    (∃ rc, specToColors (.map [("fg", some "X")]) = some rc ∧
        rc.foreground = agetN [("fg", some "X")] "fg") ∧
    (∃ rc, specToColors (.map [("background", some "Void Black")]) = some rc ∧
        rc.background = some "Void Black") ∧
    (∃ rc, specToColors (.map [("bg", some "Y")]) = some rc ∧
        rc.background = agetN [("bg", some "Y")] "bg") :=
  ⟨c9_role_spec_loading.2.1 [("foreground", some "Cyan Glow")] "Cyan Glow" rfl (by decide),
   c9_role_spec_loading.2.2.1 [("fg", some "X")] (by decide),
   c9_role_spec_loading.2.2.2.1 [("background", some "Void Black")] "Void Black" rfl (by decide),
   c9_role_spec_loading.2.2.2.2.1 [("bg", some "Y")] (by decide)⟩
